import Mathlib

/-!
Verification of the `FileRemover` removal orchestrator
(`source/client/file_remover.cc` of the Aspia client).

The orchestrator consumes a queue of removal tasks one at a time: it emits
one removal request per task, interprets the reply, applies a sticky
failure-handling policy, reports integer progress percentages, and signals
terminal completion.  The C++ class is single-threaded and event driven;
every state transition happens inside one of the member functions embedded
below, so each member function becomes a Lean function from the explicit
member state to the new state paired with the list of Qt signals it emits,
in emission order.
-/

namespace FileRemover

/-- The operator actions of `FileRemover::Action` (`Ask` is the initial,
"consult the operator" policy value; the other three are choices an
operator can send back through `applyAction`). -/
inductive Action where
  | Ask
  | Abort
  | Skip
  | SkipAll
  deriving DecidableEq, Repr

/-- A set of allowed actions, the embedding of the `Actions` bitmask
(`Abort | Skip | SkipAll` in the source). -/
abbrev Actions := Finset Action

/-- Reply status codes of `proto::file_transfer::Reply::status()` as the
orchestrator distinguishes them: success, the two recoverable failure
classes, and every other code (carried abstractly as a numeral, matching
the `default:` branch of the `switch`). -/
inductive Status where
  | success
  | pathNotFound
  | accessDenied
  | other (code : Nat)
  deriving DecidableEq, Repr

/-- The payload of the `error` signal's message argument.  The source
formats localized strings (`tr(...)`); the embedding keeps the data the
format draws from: either the fixed "unexpected answer" text, a failing
path with its status, or a queue-builder message forwarded verbatim. -/
inductive ErrorMessage where
  | unexpectedAnswer
  | failedToDelete (path : String) (status : Status)
  | builderError (message : String)
  deriving DecidableEq, Repr

/-- The Qt signals `FileRemover` emits, with their payloads. -/
inductive Event where
  | started
  | progressChanged (path : String) (percentage : Int)
  | request (path : String)
  | error (actions : Actions) (message : ErrorMessage)
  | finished
  deriving DecidableEq

/-- The member state of a `FileRemover`: the remaining task queue `tasks_`
(each task reduced to its path, the only attribute the orchestrator
reads), the recorded original queue length `tasks_count_`, and the sticky
failure policy `failure_action_`. -/
structure State where
  tasks : List String
  tasks_count : Nat
  failure_action : Action
  deriving DecidableEq, Repr

/-- `FileRemover::processTask`: if the queue is empty, emit `finished`;
otherwise compute the integer percentage
`(tasks_count_ - tasks_.size()) * 100 / tasks_count_` (C `int` division,
truncation toward zero, hence `Int.tdiv`) and emit `progressChanged`
followed by the outgoing removal `request` for the front task.  The
member state is not modified. -/
def processTask (s : State) : State × List Event :=
  if s.tasks.isEmpty then
    (s, [Event.finished])
  else
    (s, [Event.progressChanged s.tasks.headI
           (Int.tdiv (((s.tasks_count : Int) - (s.tasks.length : Int)) * 100)
             (s.tasks_count : Int)),
         Event.request s.tasks.headI])

/-- `FileRemover::processNextTask`: pop the front task if the queue is
non-empty, then continue with `processTask`. -/
def processNextTask (s : State) : State × List Event :=
  if s.tasks.isEmpty then
    processTask s
  else
    processTask { s with tasks := s.tasks.tail }

/-- `FileRemover::applyAction`.  `Skip` advances past the front task,
`SkipAll` stores itself into `failure_action_` and then advances, `Abort`
emits `finished`.  The `default:` branch calls `qFatal`, which terminates
the process; it is embedded as `none`. -/
def applyAction (s : State) (action : Action) : Option (State × List Event) :=
  match action with
  | Action.Skip => some (processNextTask s)
  | Action.SkipAll => some (processNextTask { s with failure_action := Action.SkipAll })
  | Action.Abort => some (s, [Event.finished])
  | Action.Ask => none

/-- `FileRemover::reply`.  A reply whose original request is not a removal
request raises `error` with allowed actions `{Abort}` and leaves the state
alone.  A success reply advances to the next task.  A recoverable failure
(`PATH_NOT_FOUND` or `ACCESS_DENIED`) is auto-resolved through the stored
policy when that policy is not `Ask`, and otherwise raises `error` with
allowed actions `{Abort, Skip, SkipAll}`.  Any other failure status raises
`error` with allowed actions `{Abort}`.  `has_remove_request` embeds
`request.has_remove_request()` and `path` embeds
`request.remove_request().path()`. -/
def reply (s : State) (has_remove_request : Bool) (path : String) (status : Status) :
    Option (State × List Event) :=
  if !has_remove_request then
    some (s, [Event.error {Action.Abort} ErrorMessage.unexpectedAnswer])
  else
    match status with
    | Status.success => some (processNextTask s)
    | Status.pathNotFound =>
      if s.failure_action ≠ Action.Ask then
        applyAction s s.failure_action
      else
        some (s, [Event.error {Action.Abort, Action.Skip, Action.SkipAll}
                    (ErrorMessage.failedToDelete path Status.pathNotFound)])
    | Status.accessDenied =>
      if s.failure_action ≠ Action.Ask then
        applyAction s s.failure_action
      else
        some (s, [Event.error {Action.Abort, Action.Skip, Action.SkipAll}
                    (ErrorMessage.failedToDelete path Status.accessDenied)])
    | Status.other code =>
      some (s, [Event.error {Action.Abort} (ErrorMessage.failedToDelete path (Status.other code))])

/-- `FileRemover::taskQueueError`: a queue-builder failure is surfaced as
an `error` with allowed actions `{Abort}`. -/
def taskQueueError (s : State) (message : String) : State × List Event :=
  (s, [Event.error {Action.Abort} (ErrorMessage.builderError message)])

/-- `FileRemover::taskQueueReady`: take ownership of the built queue,
record `tasks_count_ = tasks_.size()`, and start processing. -/
def taskQueueReady (s : State) (queue : List String) : State × List Event :=
  processTask { s with tasks := queue, tasks_count := queue.length }

/-- Run `n` consecutive replies that all carry `STATUS_SUCCESS` for a
removal request, collecting the emitted events in order. -/
def runSuccesses : State → Nat → Option (State × List Event)
  | s, 0 => some (s, [])
  | s, n + 1 =>
    match reply s true "" Status.success with
    | none => none
    | some (s1, ev1) =>
      match runSuccesses s1 n with
      | none => none
      | some (s2, ev2) => some (s2, ev1 ++ ev2)

/-- The complete event trace of one batch in which the builder delivers
`queue` to a remover in state `s` and every emitted removal request is
answered with a success reply. -/
def successTrace (s : State) (queue : List String) : List Event :=
  let r := taskQueueReady s queue
  match runSuccesses r.1 queue.length with
  | none => r.2
  | some (_, ev) => r.2 ++ ev

/-- The percentage payloads of the `progressChanged` events of a trace,
in order. -/
def progressPercentages : List Event → List Int
  | [] => []
  | Event.progressChanged _ p :: es => p :: progressPercentages es
  | _ :: es => progressPercentages es

/-- Recognizer for `progressChanged` events. -/
def isProgressChanged : Event → Bool
  | Event.progressChanged _ _ => true
  | _ => false

/-- The events emitted by a success-only drain of the task queue: each
success reply pops the front task and then runs `processTask` on the
remaining queue. -/
def drainEvents (N : Nat) (fa : Action) : List String → List Event
  | [] => []
  | _ :: t => (processTask ⟨t, N, fa⟩).2 ++ drainEvents N fa t

/-- The events of `processTask` on the current queue followed by the
events of draining it with success replies. -/
def fullEvents (N : Nat) (fa : Action) (t : List String) : List Event :=
  (processTask ⟨t, N, fa⟩).2 ++ drainEvents N fa t

theorem processTask_fst (s : State) : (processTask s).1 = s := by
  unfold processTask
  split <;> rfl

theorem processTask_eq_pair (s : State) : processTask s = (s, (processTask s).2) := by
  conv_lhs => rw [← Prod.mk.eta (p := processTask s), processTask_fst]

theorem processNextTask_eq (s : State) :
    processNextTask s = processTask { s with tasks := s.tasks.tail } := by
  unfold processNextTask
  rcases s with ⟨t, N, fa⟩
  cases t <;> simp

theorem processNextTask_fst (s : State) :
    (processNextTask s).1 = { s with tasks := s.tasks.tail } := by
  rw [processNextTask_eq, processTask_fst]

theorem processTask_snd_no_error (s : State) (a : Actions) (m : ErrorMessage) :
    Event.error a m ∉ (processTask s).2 := by
  unfold processTask
  split <;> simp

theorem set_skip_all_self (s : State) (h : s.failure_action = Action.SkipAll) :
    { s with failure_action := Action.SkipAll } = s := by
  rcases s with ⟨t, N, fa⟩
  cases h
  rfl

/-- Claim C3: if the queue builder delivers an empty task queue, the
orchestrator emits no request at all and emits `finished` immediately
after receiving the queue: `taskQueueReady` with the empty queue leaves
the (now empty) state and emits exactly `[finished]`, which contains no
`request` event. -/
theorem claim_c3_empty_queue (s : State) :
    taskQueueReady s [] = ({ s with tasks := [], tasks_count := 0 }, [Event.finished])
    ∧ ∀ p, Event.request p ∉ (taskQueueReady s []).2 := by
  refine ⟨rfl, ?_⟩
  intro p
  simp [taskQueueReady, processTask]

/-- Claim C5: answering a recoverable failure with `Skip` drops exactly
one task (the front), leaves the sticky policy unchanged at `Ask`, leaves
the recorded total count unchanged, and resumes processing with the next
task (the emitted events are exactly those of `processTask` on the new
state). -/
theorem claim_c5_skip (s s1 : State) (ev1 : List Event)
    (hne : s.tasks ≠ [])
    (hfa : s.failure_action = Action.Ask)
    (h : applyAction s Action.Skip = some (s1, ev1)) :
    s1.tasks = s.tasks.tail
    ∧ s1.tasks.length + 1 = s.tasks.length
    ∧ s1.tasks_count = s.tasks_count
    ∧ s1.failure_action = Action.Ask
    ∧ ev1 = (processTask s1).2 := by
  have h' : applyAction s Action.Skip = some (processNextTask s) := rfl
  rw [h', processNextTask_eq, processTask_eq_pair] at h
  obtain ⟨h1, h2⟩ := Prod.mk.injEq .. ▸ Option.some.injEq .. ▸ h
  subst h1
  constructor
  · rfl
  refine ⟨?_, rfl, hfa ▸ rfl, h2.symm⟩
  rcases s with ⟨t, N, fa⟩
  cases t with
  | nil => exact absurd rfl hne
  | cons x t => rfl

/-- Claim C6: answering any failure with `Abort` emits `finished`
immediately, leaves the whole state (in particular the remaining queue)
untouched, and emits no further request. -/
theorem claim_c6_abort (s : State) :
    applyAction s Action.Abort = some (s, [Event.finished])
    ∧ ∀ r : State × List Event, applyAction s Action.Abort = some r →
        r.1 = s ∧ ∀ p, Event.request p ∉ r.2 := by
  refine ⟨rfl, ?_⟩
  intro r hr
  have : (s, [Event.finished]) = r := by
    exact Option.some.injEq .. ▸ hr
  subst this
  simp

/-- Claim C7: a reply whose status is neither success, path-not-found nor
access-denied (the `default:` branch of the status switch) raises an
`error` whose allowed-action set is exactly `{Abort}`, a set containing
neither `Skip` nor `SkipAll`, and leaves the state unchanged. -/
theorem claim_c7_unclassified (s : State) (p : String) (code : Nat) :
    reply s true p (Status.other code) =
      some (s, [Event.error {Action.Abort} (ErrorMessage.failedToDelete p (Status.other code))])
    ∧ Action.Skip ∉ ({Action.Abort} : Actions)
    ∧ Action.SkipAll ∉ ({Action.Abort} : Actions) := by
  refine ⟨rfl, ?_, ?_⟩ <;> decide

/-- Claim C8: a reply whose original request is not a removal request
raises an `error` whose allowed-action set is exactly `{Abort}` and
returns with the state unchanged: the task queue, the recorded total
count and the sticky policy are exactly those of the incoming state. -/
theorem claim_c8_protocol_violation (s : State) (p : String) (st : Status) :
    reply s false p st =
      some (s, [Event.error {Action.Abort} ErrorMessage.unexpectedAnswer]) := rfl

/-- Claim C10: advancing past the current task is total on the empty
queue: the pop inside `processNextTask` is guarded by the non-emptiness
check, so `processNextTask` (and with it `applyAction Skip`,
`applyAction SkipAll` and a success reply) performs no removal and simply
emits `finished`. -/
theorem claim_c10_advance_empty (s : State) (p : String) (h : s.tasks = []) :
    processNextTask s = (s, [Event.finished])
    ∧ applyAction s Action.Skip = some (s, [Event.finished])
    ∧ reply s true p Status.success = some (s, [Event.finished])
    ∧ ∀ r : State × List Event, applyAction s Action.SkipAll = some r →
        r.1.tasks = [] ∧ r.2 = [Event.finished] := by
  have hp : processNextTask s = (s, [Event.finished]) := by
    rw [processNextTask_eq, h]
    have : { s with tasks := List.tail [] } = s := by
      rcases s with ⟨t, N, fa⟩
      simp_all
    rw [this]
    unfold processTask
    rw [h]
    rfl
  refine ⟨hp, ?_, ?_, ?_⟩
  · show some (processNextTask s) = _
    rw [hp]
  · show some (processNextTask s) = _
    rw [hp]
  · intro r hr
    have hr' : applyAction s Action.SkipAll =
        some (processNextTask { s with failure_action := Action.SkipAll }) := rfl
    have hp' : processNextTask { s with failure_action := Action.SkipAll } =
        ({ s with failure_action := Action.SkipAll }, [Event.finished]) := by
      rw [processNextTask_eq]
      unfold processTask
      simp [h]
    rw [hr', hp'] at hr
    have : ({ s with failure_action := Action.SkipAll }, [Event.finished]) = r :=
      Option.some.injEq .. ▸ hr
    subst this
    exact ⟨h, rfl⟩

theorem applyAction_failure_action (s : State) (a : Action) (r : State × List Event)
    (hfa : s.failure_action = Action.SkipAll) (h : applyAction s a = some r) :
    r.1.failure_action = Action.SkipAll := by
  cases a with
  | Ask => exact absurd h (by simp [applyAction])
  | Abort =>
    have : (s, [Event.finished]) = r := Option.some.injEq .. ▸ h
    subst this
    exact hfa
  | Skip =>
    have : processNextTask s = r := Option.some.injEq .. ▸ h
    subst this
    rw [processNextTask_fst]
    exact hfa
  | SkipAll =>
    have : processNextTask { s with failure_action := Action.SkipAll } = r :=
      Option.some.injEq .. ▸ h
    subst this
    rw [processNextTask_fst]

theorem reply_failure_action (s : State) (b : Bool) (p : String) (st : Status)
    (r : State × List Event)
    (hfa : s.failure_action = Action.SkipAll) (h : reply s b p st = some r) :
    r.1.failure_action = Action.SkipAll := by
  cases b with
  | false =>
    have : (s, [Event.error {Action.Abort} ErrorMessage.unexpectedAnswer]) = r :=
      Option.some.injEq .. ▸ h
    subst this
    exact hfa
  | true =>
    cases st with
    | success =>
      have : processNextTask s = r := Option.some.injEq .. ▸ h
      subst this
      rw [processNextTask_fst]
      exact hfa
    | pathNotFound =>
      rw [reply, if_neg (by simp), if_pos (by rw [hfa]; decide)] at h
      exact applyAction_failure_action s s.failure_action r hfa h
    | accessDenied =>
      rw [reply, if_neg (by simp), if_pos (by rw [hfa]; decide)] at h
      exact applyAction_failure_action s s.failure_action r hfa h
    | other code =>
      have : (s, [Event.error {Action.Abort}
          (ErrorMessage.failedToDelete p (Status.other code))]) = r :=
        Option.some.injEq .. ▸ h
      subst this
      exact hfa

/-- Claim C4: answering a recoverable failure with `SkipAll` makes the
policy sticky (`failure_action_ = SkipAll`) and drops the front task;
afterwards every recoverable failure reply is resolved automatically —
the emitted events contain no `error` — and the policy `SkipAll` is
preserved by every `reply` and every `applyAction`, so the `error` signal
is never raised again for a recoverable failure in the batch. -/
theorem claim_c4_skip_all_sticky (s s1 : State) (ev1 : List Event)
    (h : applyAction s Action.SkipAll = some (s1, ev1)) :
    s1.failure_action = Action.SkipAll
    ∧ s1.tasks = s.tasks.tail
    ∧ (∀ s2 : State, ∀ p : String, ∀ st : Status, ∀ r : State × List Event,
        s2.failure_action = Action.SkipAll →
        (st = Status.pathNotFound ∨ st = Status.accessDenied) →
        reply s2 true p st = some r →
        (∀ a m, Event.error a m ∉ r.2)
        ∧ r.1.failure_action = Action.SkipAll
        ∧ r.1.tasks = s2.tasks.tail)
    ∧ (∀ s2 : State, ∀ b : Bool, ∀ p : String, ∀ st : Status, ∀ r : State × List Event,
        s2.failure_action = Action.SkipAll → reply s2 b p st = some r →
        r.1.failure_action = Action.SkipAll)
    ∧ (∀ s2 : State, ∀ a : Action, ∀ r : State × List Event,
        s2.failure_action = Action.SkipAll → applyAction s2 a = some r →
        r.1.failure_action = Action.SkipAll) := by
  have h' : applyAction s Action.SkipAll =
      some (processNextTask { s with failure_action := Action.SkipAll }) := rfl
  rw [h'] at h
  have hpair : processNextTask { s with failure_action := Action.SkipAll } = (s1, ev1) :=
    Option.some.injEq .. ▸ h
  have hs1 : s1 = { s with tasks := s.tasks.tail, failure_action := Action.SkipAll } := by
    have := processNextTask_fst { s with failure_action := Action.SkipAll }
    rw [hpair] at this
    simpa using this
  refine ⟨by rw [hs1], by rw [hs1], ?_, ?_, ?_⟩
  · intro s2 p st r hfa hrec hr
    have hauto : reply s2 true p st = applyAction s2 s2.failure_action := by
      rcases hrec with h1 | h1 <;> subst h1 <;>
        rw [reply, if_neg (by simp), if_pos (by rw [hfa]; decide)]
    rw [hauto, hfa] at hr
    have hr' : applyAction s2 Action.SkipAll =
        some (processNextTask { s2 with failure_action := Action.SkipAll }) := rfl
    rw [hr', set_skip_all_self s2 hfa] at hr
    have hpr : processNextTask s2 = r := Option.some.injEq .. ▸ hr
    subst hpr
    refine ⟨?_, ?_, ?_⟩
    · intro a m
      rw [processNextTask_eq]
      exact processTask_snd_no_error _ a m
    · rw [processNextTask_fst]
      exact hfa
    · rw [processNextTask_fst]
  · intro s2 b p st r hfa hr
    exact reply_failure_action s2 b p st r hfa hr
  · intro s2 a r hfa hr
    exact applyAction_failure_action s2 a r hfa hr

/-- Witness for claim C4 at a concrete state: a two-task queue with
policy `Ask`; `SkipAll` sets the sticky policy and pops the front task. -/
theorem claim_c4_witness :
    (⟨["b"], 2, Action.SkipAll⟩ : State).failure_action = Action.SkipAll
    ∧ (⟨["b"], 2, Action.SkipAll⟩ : State).tasks =
        (⟨["a", "b"], 2, Action.Ask⟩ : State).tasks.tail :=
  (fun hc => ⟨hc.1, hc.2.1⟩)
    (claim_c4_skip_all_sticky ⟨["a", "b"], 2, Action.Ask⟩ ⟨["b"], 2, Action.SkipAll⟩
      [Event.progressChanged "b" 50, Event.request "b"] (by decide))

theorem applyAction_inv (s : State) (a : Action) (r : State × List Event)
    (hinv : s.tasks.length ≤ s.tasks_count) (h : applyAction s a = some r) :
    r.1.tasks.length ≤ r.1.tasks_count ∧ r.1.tasks_count = s.tasks_count := by
  cases a with
  | Ask => exact absurd h (by simp [applyAction])
  | Abort =>
    have : (s, [Event.finished]) = r := Option.some.injEq .. ▸ h
    subst this
    exact ⟨hinv, rfl⟩
  | Skip =>
    have : processNextTask s = r := Option.some.injEq .. ▸ h
    subst this
    rw [processNextTask_fst]
    refine ⟨?_, rfl⟩
    have := List.length_tail s.tasks
    simp only [this]
    omega
  | SkipAll =>
    have : processNextTask { s with failure_action := Action.SkipAll } = r :=
      Option.some.injEq .. ▸ h
    subst this
    rw [processNextTask_fst]
    refine ⟨?_, rfl⟩
    have := List.length_tail s.tasks
    simp only [this]
    omega

theorem reply_inv (s : State) (b : Bool) (p : String) (st : Status)
    (r : State × List Event)
    (hinv : s.tasks.length ≤ s.tasks_count) (h : reply s b p st = some r) :
    r.1.tasks.length ≤ r.1.tasks_count ∧ r.1.tasks_count = s.tasks_count := by
  cases b with
  | false =>
    have : (s, [Event.error {Action.Abort} ErrorMessage.unexpectedAnswer]) = r :=
      Option.some.injEq .. ▸ h
    subst this
    exact ⟨hinv, rfl⟩
  | true =>
    cases st with
    | success =>
      have : processNextTask s = r := Option.some.injEq .. ▸ h
      subst this
      rw [processNextTask_fst]
      refine ⟨?_, rfl⟩
      have := List.length_tail s.tasks
      simp only [this]
      omega
    | pathNotFound =>
      rw [reply, if_neg (by simp)] at h
      by_cases hfa : s.failure_action = Action.Ask
      · rw [if_neg (by simp [hfa])] at h
        have : (s, _) = r := Option.some.injEq .. ▸ h
        subst this
        exact ⟨hinv, rfl⟩
      · rw [if_pos (by simp [hfa])] at h
        exact applyAction_inv s s.failure_action r hinv h
    | accessDenied =>
      rw [reply, if_neg (by simp)] at h
      by_cases hfa : s.failure_action = Action.Ask
      · rw [if_neg (by simp [hfa])] at h
        have : (s, _) = r := Option.some.injEq .. ▸ h
        subst this
        exact ⟨hinv, rfl⟩
      · rw [if_pos (by simp [hfa])] at h
        exact applyAction_inv s s.failure_action r hinv h
    | other code =>
      have : (s, [Event.error {Action.Abort}
          (ErrorMessage.failedToDelete p (Status.other code))]) = r :=
        Option.some.injEq .. ▸ h
      subst this
      exact ⟨hinv, rfl⟩

/-- Claim C9: `taskQueueReady` establishes `tasks_count = length queue`
(hence `length tasks ≤ tasks_count`), and every operation of the
orchestrator — `processTask`, `processNextTask`, `applyAction`, `reply` —
preserves the invariant `length tasks ≤ tasks_count` and never writes
`tasks_count` again. -/
theorem claim_c9_total_count (s : State) (q : List String) :
    ((taskQueueReady s q).1.tasks_count = q.length
      ∧ (taskQueueReady s q).1.tasks.length ≤ (taskQueueReady s q).1.tasks_count)
    ∧ (∀ s2 : State, (processTask s2).1 = s2)
    ∧ (∀ s2 : State, s2.tasks.length ≤ s2.tasks_count →
        (processNextTask s2).1.tasks.length ≤ (processNextTask s2).1.tasks_count
        ∧ (processNextTask s2).1.tasks_count = s2.tasks_count)
    ∧ (∀ s2 : State, ∀ a : Action, ∀ r : State × List Event,
        s2.tasks.length ≤ s2.tasks_count → applyAction s2 a = some r →
        r.1.tasks.length ≤ r.1.tasks_count ∧ r.1.tasks_count = s2.tasks_count)
    ∧ (∀ s2 : State, ∀ b : Bool, ∀ p : String, ∀ st : Status, ∀ r : State × List Event,
        s2.tasks.length ≤ s2.tasks_count → reply s2 b p st = some r →
        r.1.tasks.length ≤ r.1.tasks_count ∧ r.1.tasks_count = s2.tasks_count) := by
  refine ⟨?_, processTask_fst, ?_, applyAction_inv, reply_inv⟩
  · rw [taskQueueReady, processTask_fst]
    exact ⟨rfl, le_refl _⟩
  · intro s2 hinv
    rw [processNextTask_fst]
    refine ⟨?_, rfl⟩
    have := List.length_tail s2.tasks
    simp only [this]
    omega

/-- Witness for claim C5 at a concrete state: a two-task queue with
policy `Ask`; `Skip` pops the front and re-emits progress and request for
the remaining task. -/
theorem claim_c5_witness :
    (⟨["b"], 2, Action.Ask⟩ : State).tasks = (⟨["a", "b"], 2, Action.Ask⟩ : State).tasks.tail
    ∧ (⟨["b"], 2, Action.Ask⟩ : State).tasks.length + 1 =
        (⟨["a", "b"], 2, Action.Ask⟩ : State).tasks.length
    ∧ (⟨["b"], 2, Action.Ask⟩ : State).tasks_count =
        (⟨["a", "b"], 2, Action.Ask⟩ : State).tasks_count
    ∧ (⟨["b"], 2, Action.Ask⟩ : State).failure_action = Action.Ask
    ∧ [Event.progressChanged "b" 50, Event.request "b"] =
        (processTask ⟨["b"], 2, Action.Ask⟩).2 :=
  claim_c5_skip ⟨["a", "b"], 2, Action.Ask⟩ ⟨["b"], 2, Action.Ask⟩
    [Event.progressChanged "b" 50, Event.request "b"]
    (by decide) rfl (by decide)

/-- Claim C2: with the queue non-empty — `i` tasks already removed from a
queue whose recorded total is `N = tasks_count`, so the current length is
`N - i` with `i < N` — the percentage reported by `processTask` before
attempting the front task equals `i * 100 / N` under integer division,
and the recorded total is non-zero, so the division never divides by
zero. -/
theorem claim_c2_percentage (s : State) (i : Nat)
    (hi : i < s.tasks_count) (hlen : s.tasks.length = s.tasks_count - i) :
    s.tasks_count ≠ 0
    ∧ (processTask s).2 =
        [Event.progressChanged s.tasks.headI ((i * 100 / s.tasks_count : Nat) : Int),
         Event.request s.tasks.headI] := by
  have hc0 : s.tasks_count ≠ 0 := by omega
  refine ⟨hc0, ?_⟩
  have hlen0 : s.tasks.length ≠ 0 := by omega
  have hne : s.tasks.isEmpty = false := by
    cases ht : s.tasks with
    | nil => rw [ht] at hlen0; simp at hlen0
    | cons a l => rfl
  have hval : Int.tdiv (((s.tasks_count : Int) - (s.tasks.length : Int)) * 100)
      (s.tasks_count : Int) = ((i * 100 / s.tasks_count : Nat) : Int) := by
    have h1 : ((s.tasks_count : Int) - (s.tasks.length : Int)) * 100 = ((i * 100 : Nat) : Int) := by
      rw [hlen]
      push_cast [Nat.cast_sub hi.le]
      ring
    rw [h1]
    rw [← Int.ofNat_tdiv]
  unfold processTask
  rw [hval, hne]
  simp

/-- Witness for claim C2 at a concrete state: one task left out of a
recorded total of three, so two tasks were already removed and the
reported percentage is `2 * 100 / 3 = 66`. -/
theorem claim_c2_witness :
    (2 < (⟨["c"], 3, Action.Ask⟩ : State).tasks_count
      ∧ (⟨["c"], 3, Action.Ask⟩ : State).tasks.length =
          (⟨["c"], 3, Action.Ask⟩ : State).tasks_count - 2)
    ∧ ((⟨["c"], 3, Action.Ask⟩ : State).tasks_count ≠ 0
      ∧ (processTask ⟨["c"], 3, Action.Ask⟩).2 =
          [Event.progressChanged "c" 66, Event.request "c"]) :=
  ⟨⟨by decide, by decide⟩,
   claim_c2_percentage ⟨["c"], 3, Action.Ask⟩ 2 (by decide) (by decide)⟩

/-- Witness for claim C10 at a concrete state with an empty queue. -/
theorem claim_c10_witness :
    processNextTask ⟨[], 5, Action.Ask⟩ = (⟨[], 5, Action.Ask⟩, [Event.finished]) :=
  (claim_c10_advance_empty ⟨[], 5, Action.Ask⟩ "x" rfl).1

theorem reply_success_eq (s : State) (p : String) :
    reply s true p Status.success = some (processNextTask s) := rfl

theorem fullEvents_nil (N : Nat) (fa : Action) : fullEvents N fa [] = [Event.finished] := rfl

theorem fullEvents_cons (N : Nat) (fa : Action) (x : String) (t : List String) :
    fullEvents N fa (x :: t) =
      Event.progressChanged x
          (Int.tdiv (((N : Int) - ((t.length + 1 : Nat) : Int)) * 100) (N : Int))
        :: Event.request x :: fullEvents N fa t := rfl

theorem runSuccesses_eq (N : Nat) (fa : Action) :
    ∀ t : List String,
      runSuccesses ⟨t, N, fa⟩ t.length = some (⟨[], N, fa⟩, drainEvents N fa t) := by
  intro t
  induction t with
  | nil => rfl
  | cons x t ih =>
    have hstep : reply ⟨x :: t, N, fa⟩ true "" Status.success =
        some (⟨t, N, fa⟩, (processTask ⟨t, N, fa⟩).2) := by
      rw [reply_success_eq, processNextTask_eq]
      show some (processTask ⟨t, N, fa⟩) = _
      rw [processTask_eq_pair]
    simp only [List.length_cons, runSuccesses, hstep, ih, drainEvents]

theorem successTrace_eq (s : State) (q : List String) :
    successTrace s q = fullEvents q.length s.failure_action q := by
  rcases s with ⟨t0, N0, fa⟩
  have h1 : (taskQueueReady ⟨t0, N0, fa⟩ q).1 = ⟨q, q.length, fa⟩ := processTask_fst _
  show (match runSuccesses (taskQueueReady ⟨t0, N0, fa⟩ q).1 q.length with
        | none => (taskQueueReady ⟨t0, N0, fa⟩ q).2
        | some (_, ev) => (taskQueueReady ⟨t0, N0, fa⟩ q).2 ++ ev) =
      fullEvents q.length fa q
  rw [h1, runSuccesses_eq]
  rfl

theorem progressPercentages_prog_req (x : String) (v : Int) (l : List Event) :
    progressPercentages (Event.progressChanged x v :: Event.request x :: l) =
      v :: progressPercentages l := rfl

theorem progressPercentages_fullEvents (N : Nat) (fa : Action) :
    ∀ t : List String, t.length ≤ N →
      progressPercentages (fullEvents N fa t) =
        (List.range' (N - t.length) t.length).map (fun j => ((j * 100 / N : Nat) : Int)) := by
  intro t
  induction t with
  | nil => intro _; rfl
  | cons x t ih =>
    intro h
    have hlt : t.length + 1 ≤ N := by simpa using h
    rw [fullEvents_cons, progressPercentages_prog_req, ih (Nat.le_of_succ_le hlt)]
    simp only [List.length_cons, List.range'_succ, List.map_cons]
    congr 1
    · have hc : ((N : Int) - ((t.length + 1 : Nat) : Int)) * 100 =
          (((N - (t.length + 1)) * 100 : Nat) : Int) := by
        push_cast [Nat.cast_sub hlt]
        ring
      rw [hc, ← Int.ofNat_tdiv]
    · have hidx : N - t.length = N - (t.length + 1) + 1 := by omega
      rw [hidx]

theorem progressPercentages_successTrace (s : State) (q : List String) :
    progressPercentages (successTrace s q) =
      (List.range q.length).map (fun j => ((j * 100 / q.length : Nat) : Int)) := by
  rw [successTrace_eq, progressPercentages_fullEvents q.length s.failure_action q le_rfl,
    Nat.sub_self, List.range_eq_range']

theorem fullEvents_finished (N : Nat) (fa : Action) :
    ∀ t : List String, ∃ pre : List Event,
      fullEvents N fa t = pre ++ [Event.finished] ∧ Event.finished ∉ pre := by
  intro t
  induction t with
  | nil => exact ⟨[], rfl, by simp⟩
  | cons x t ih =>
    obtain ⟨pre, hpre, hmem⟩ := ih
    refine ⟨Event.progressChanged x
        (Int.tdiv (((N : Int) - ((t.length + 1 : Nat) : Int)) * 100) (N : Int))
      :: Event.request x :: pre, ?_, ?_⟩
    · rw [fullEvents_cons, hpre]
      rfl
    · simp [hmem]

theorem progressPercentages_length (l : List Event) :
    (progressPercentages l).length = l.countP isProgressChanged := by
  induction l with
  | nil => rfl
  | cons e es ih =>
    cases e <;> simp [progressPercentages, isProgressChanged, List.countP_cons, ih]

/-- Claim C1 (amended): for every non-empty task queue of length `N`
whose removal requests all receive success replies, `progressChanged` is
emitted exactly `N` times, the `i`-th (0-based) carrying percentage
`i * 100 / N` under integer division — a non-decreasing sequence starting
at `0` whose final value is `(N - 1) * 100 / N`, which is less than 100 —
and `finished` is emitted immediately after the last reply, with no
`finished` before it. -/
theorem claim_c1_success_batch (s : State) (q : List String) (_h : q ≠ []) :
    (successTrace s q).countP isProgressChanged = q.length
    ∧ progressPercentages (successTrace s q) =
        (List.range q.length).map (fun j => ((j * 100 / q.length : Nat) : Int))
    ∧ ∃ pre : List Event, successTrace s q = pre ++ [Event.finished]
        ∧ Event.finished ∉ pre := by
  have hp := progressPercentages_successTrace s q
  refine ⟨?_, hp, ?_⟩
  · rw [← progressPercentages_length, hp]
    simp
  · rw [successTrace_eq]
    exact fullEvents_finished q.length s.failure_action q

/-- Claim C1 as stated is false on the code: for a queue of 101 tasks
with all-success replies the first two reported percentages are both `0`
(so the sequence is not strictly increasing) and the percentage on the
final item is `99`, not `100`. -/
theorem claim_c1_counterexample :
    (progressPercentages (successTrace ⟨[], 0, Action.Ask⟩ (List.replicate 101 "a"))).take 2
        = [0, 0]
    ∧ (progressPercentages (successTrace ⟨[], 0, Action.Ask⟩ (List.replicate 101 "a"))).getLast?
        = some 99
    ∧ (99 : Int) ≠ 100 := by
  decide

/-- Witness for claim C1 at a concrete three-task queue: the percentages
are `0 * 100 / 3 = 0`, `1 * 100 / 3 = 33` and `2 * 100 / 3 = 66`. -/
theorem claim_c1_witness :
    (["a", "b", "c"] : List String) ≠ []
    ∧ progressPercentages (successTrace ⟨[], 0, Action.Ask⟩ ["a", "b", "c"]) =
        (List.range (["a", "b", "c"] : List String).length).map
          (fun j => ((j * 100 / (["a", "b", "c"] : List String).length : Nat) : Int)) :=
  ⟨by decide, (claim_c1_success_batch ⟨[], 0, Action.Ask⟩ ["a", "b", "c"] (by decide)).2.1⟩

end FileRemover
